import Mathlib

/-!
Verification of the equation-render processor (`src/mdmath-js/src/processor.js`).

The development shallowly embeds the processor's render pipeline:

* JavaScript numbers are modelled as exact unnormalized fractions (`Frac`),
  with an interpretation `Frac.val : Frac → ℚ` used in theorem statements.
  All `Frac` operations are executable and kernel-reducible, so concrete
  runs of the pipeline can be evaluated by `decide`.
* The external collaborators (MathJax typesetter, rsvg-convert, the PNG
  dimension probe and the PNG fit tool) are modelled as an `Oracle` of
  call-indexed functions, so that repeated invocations may return different
  results (needed to analyse retry behaviour).
* The mutable module state (`svgCache`, `equationMap`, `equations`,
  `internalScale`, `dynamicScale`) is an explicit `PState` record threaded
  through the functions; responses written to stdout, raised exceptions,
  calls to external tools and files written are collected in a `Trace`.
-/

/-- Exact unnormalized fraction, modelling a JavaScript number. -/
structure Frac where
  num : Int
  den : Int
deriving DecidableEq, Repr

/-- Embed a natural number. -/
def Frac.ofNat (n : Nat) : Frac := ⟨(n : Int), 1⟩

/-- Embed an integer. -/
def Frac.ofInt (n : Int) : Frac := ⟨n, 1⟩

/-- Multiplication of fractions (no normalization). -/
def Frac.mul (a b : Frac) : Frac := ⟨a.num * b.num, a.den * b.den⟩

/-- Division of fractions; the sign is pushed into the numerator so that the
resulting denominator is nonnegative. -/
def Frac.div (a b : Frac) : Frac :=
  let n := a.num * b.den
  let d := a.den * b.num
  if d < 0 then ⟨-n, -d⟩ else ⟨n, d⟩

/-- Ceiling of a fraction with positive denominator, via integer division. -/
def Frac.ceil (f : Frac) : Int := -(-f.num / f.den)

/-- Value of a fraction as a rational number. -/
def Frac.val (f : Frac) : ℚ := (f.num : ℚ) / (f.den : ℚ)

/-- Decimal-style rendering of a fraction (used only inside filenames). -/
def Frac.str (f : Frac) : String :=
  if f.den = 1 then toString f.num else toString f.num ++ "/" ++ toString f.den

/-- Whitespace characters recognised by JavaScript's `String.prototype.trim`
(ECMAScript WhiteSpace and LineTerminator code points). -/
def isJsWhitespace (c : Char) : Bool :=
  c = ' ' || c = '\t' || c = '\n' || c = '\r' ||
  c = '\u000B' || c = '\u000C' || c = '\u00A0' ||
  c = '\u1680' || ('\u2000' ≤ c && c ≤ '\u200A') ||
  c = '\u2028' || c = '\u2029' || c = '\u202F' ||
  c = '\u205F' || c = '\u3000' || c = '\uFEFF'

/-- Condition of the guard `!equation || equation.trim().length === 0`: the
equation is empty or consists only of whitespace. -/
def isJsBlank (s : String) : Bool := s.data.all isJsWhitespace

/-- Result of one invocation of the MathJax typesetter
(`MathJax.tex2svgPromise`), as classified by `equationToSVG`'s catch clause:
success, a structured `MathError` (malformed LaTeX), or any other failure. -/
inductive TypesetRes where
  | ok (svg : String)
  | matherr (msg : String)
  | toolfail (msg : String)
deriving DecidableEq, Repr

/-- Entry of the typeset cache `svgCache`: `{svg: string}` or
`{error: string}`. -/
inductive SvgEntry where
  | svg (s : String)
  | error (e : String)
deriving DecidableEq, Repr

/-- Size request given to `rsvgConvert`: either a zoom factor (dynamic mode)
or explicit pixel dimensions (fixed mode). -/
inductive RasterSpec where
  | zoom (z : Frac)
  | size (w h : Frac)
deriving DecidableEq, Repr

/-- Opaque raster data returned by `rsvgConvert`. -/
abbrev PNG := Nat

/-- Record of one call to an external rasterizer tool: `rsvgConvert`,
`pngDimensions` (recorded together with its answer) or `pngFitTo`. -/
inductive RasterCall where
  | convert (spec : RasterSpec)
  | dims (result : Option (Frac × Frac))
  | fit (filename : String) (w h : Frac) (center : Bool)
deriving DecidableEq, Repr

/-- Entry of the rendered-image cache (`equations` / `equationMap`); the
`width` and `height` fields hold the final cell spans. -/
structure EquationObj where
  equation : String
  filename : String
  width : Int
  height : Int
deriving DecidableEq, Repr

/-- Response written to stdout: `write` (success) or `writeError`. -/
inductive Output where
  | image (identifier : String) (width height : Int) (data : String)
  | error (identifier : String) (msg : String)
deriving DecidableEq, Repr

/-- Identifier carried by a response. -/
def Output.ident : Output → String
  | .image i _ _ _ => i
  | .error i _ => i

/-- Wire framing of a response, as produced by `write` / `writeError`. -/
def frameOutput : Output → String
  | .image i w h data =>
      i ++ ":image:" ++ toString w ++ ":" ++ toString h ++ ":" ++
        toString data.length ++ ":" ++ data
  | .error i msg =>
      i ++ ":error:0:0:" ++ toString msg.length ++ ":" ++ msg

/-- Mutable module state of the processor. -/
structure PState where
  svgCache : List (String × SvgEntry) := []
  equationMap : List (String × EquationObj) := []
  equations : List EquationObj := []
  internalScale : Frac := ⟨1, 1⟩
  dynamicScale : Frac := ⟨1, 1⟩
  tsCount : Nat := 0
  rsCount : Nat := 0
deriving DecidableEq, Repr

/-- Observable effects of processing one request: responses written, an
exception escaping the async function (its message), the calls made to the
typesetter and to the rasterizer tools, and the image files written. -/
structure Trace where
  out : List Output := []
  thrown : Option String := none
  tsCalls : Nat := 0
  rsLog : List RasterCall := []
  written : List String := []
deriving DecidableEq, Repr

/-- External collaborators. Each is indexed by a call counter so that
successive invocations may behave differently. `sha` models `sha256Hash`
and `imgDir` the per-process image directory `IMG_DIR`. -/
structure Oracle where
  typeset : Nat → String → TypesetRes
  rsvg : Nat → String → RasterSpec → Except String PNG
  pngDims : Nat → PNG → Except String (Frac × Frac)
  pngFit : Nat → PNG → String → Frac → Frac → Bool → Except String Unit
  sha : String → String
  imgDir : String

/-- Cache key of the rendered-image cache, from the template literal
`\x7b equation\x7d_\x7b cWidth\x7d*\x7b width\x7dx\x7b cHeight\x7d*\x7b height\x7d_\x7b flags\x7d_\x7b color\x7d`. -/
def equationKey (equation : String) (cWidth width cHeight height flags : Nat)
    (color : String) : String :=
  equation ++ "_" ++ Nat.repr cWidth ++ "*" ++ Nat.repr width ++ "x" ++
    Nat.repr cHeight ++ "*" ++ Nat.repr height ++ "_" ++ Nat.repr flags ++
    "_" ++ color

/-- Embedding of `equationToSVG`: consult `svgCache`; on a miss invoke the
typesetter, cache a success or a `MathError`, and re-raise (without caching)
any other failure. Returns the result (`Except` models the raised
exception), the new state, and the number of typesetter invocations. -/
def equationToSVG (o : Oracle) (st : PState) (equation : String) :
    Except String SvgEntry × PState × Nat :=
  match st.svgCache.lookup equation with
  | some entry => (.ok entry, st, 0)
  | none =>
    let idx := st.tsCount
    let st := { st with tsCount := st.tsCount + 1 }
    match o.typeset idx equation with
    | .ok svg =>
        (.ok (.svg svg), { st with svgCache := (equation, .svg svg) :: st.svgCache }, 1)
    | .matherr m =>
        (.ok (.error m), { st with svgCache := (equation, .error m) :: st.svgCache }, 1)
    | .toolfail m => (.error m, st, 1)

/-- Fuel-driven scan of the replace-all pass; the fuel is an upper bound on
the subject length, so the `0, s` clause is never reached from
`replaceAllL`. -/
def replaceAllGo (pat repl : List Char) : Nat → List Char → List Char
  | _, [] => []
  | 0, s => s
  | fuel + 1, c :: t =>
    if pat ≠ [] ∧ pat.isPrefixOf (c :: t) then
      repl ++ replaceAllGo pat repl fuel ((c :: t).drop pat.length)
    else
      c :: replaceAllGo pat repl fuel t

/-- Replacement of every (leftmost, non-overlapping) occurrence of `pat` by
`repl`, modelling `String.prototype.replace` with a global literal pattern
(`/currentColor/g`). -/
def replaceAllL (pat repl s : List Char) : List Char :=
  replaceAllGo pat repl s.length s

/-- Characters of the literal part `style="` of the pattern `style="[^"]+"`. -/
def stylePat : List Char := "style=\"".data

/-- Attempt to match the regular expression `style="[^"]+"` at the head of
`s`; on success return the matched text and the remainder of `s`. -/
def styleMatchAt? (s : List Char) : Option (List Char × List Char) :=
  if stylePat.isPrefixOf s then
    let t := s.drop stylePat.length
    let r := t.takeWhile (fun c => c ≠ '"')
    let rest := t.dropWhile (fun c => c ≠ '"')
    if r ≠ [] ∧ rest.head? = some '"' then
      some (stylePat ++ r ++ ['"'], rest.tail)
    else none
  else none

/-- Removal of the first (leftmost) match of `style="[^"]+"`, modelling
`String.prototype.replace` with a non-global pattern and empty replacement. -/
def replaceFirstStyleL : List Char → List Char
  | [] => []
  | c :: t =>
    match styleMatchAt? (c :: t) with
    | some x => x.2
    | none => c :: replaceFirstStyleL t

/-- Color substitution applied to the SVG markup before rasterization:
`svg.replace(/currentColor/g, color).replace(/style="[^"]+"/, '')`. -/
def substituteColor (color : String) (svg : String) : String :=
  ⟨replaceFirstStyleL (replaceAllL "currentColor".data color.data svg.data)⟩

/-- Tail of the render pipeline shared by both sizing modes: compute the
content-addressed filename, call `pngFitTo`, and on success record the
rendered equation in `equations` and `equationMap` and write the success
response. -/
def finishRender (o : Oracle) (st : PState) (identifier equation ekey : String)
    (width' height' : Int) (iWidth iHeight : Frac) (flags : Nat)
    (basePNG : PNG) (tsCalls : Nat) (rsPre : List RasterCall) :
    PState × Trace :=
  let hash := ((o.sha equation).data.take 7).asString
  let isCenter := (flags.land 2) != 0
  let filename :=
    o.imgDir ++ "/" ++ hash ++ "_" ++ iWidth.str ++ "x" ++ iHeight.str ++ ".png"
  let i := st.rsCount
  let st' := { st with rsCount := st.rsCount + 1 }
  match o.pngFit i basePNG filename iWidth iHeight isCenter with
  | .error m =>
      (st', { thrown := some m, tsCalls := tsCalls,
              rsLog := rsPre ++ [.fit filename iWidth iHeight isCenter] })
  | .ok _ =>
      let obj : EquationObj := ⟨equation, filename, width', height'⟩
      ({ st' with equations := st'.equations ++ [obj],
                  equationMap := (ekey, obj) :: st'.equationMap },
       { out := [.image identifier width' height' filename],
         tsCalls := tsCalls,
         rsLog := rsPre ++ [.fit filename iWidth iHeight isCenter],
         written := [filename] })

/-- Render pipeline from the point where SVG markup is in hand (the body of
`processEquation` after the typeset-cache lookup succeeded with markup):
color substitution, sizing in fixed or dynamic mode, rasterization, and
`finishRender`. `n` is the number of typesetter invocations already made for
this request, recorded in the trace. -/
def renderWithSVG (o : Oracle) (st1 : PState) (identifier equation ekey : String)
    (cWidth cHeight width height flags : Nat) (color : String) (svg0 : String)
    (n : Nat) : PState × Trace :=
  let svg := substituteColor color svg0
  if (flags.land 1) != 0 then
    let zoom := (((Frac.ofNat 10).mul st1.dynamicScale).mul
      (Frac.ofNat cHeight)).mul st1.internalScale |>.div (Frac.ofNat 96)
    let i1 := st1.rsCount
    let st2 := { st1 with rsCount := st1.rsCount + 1 }
    match o.rsvg i1 svg (.zoom zoom) with
    | .error m =>
        (st2, { thrown := some m, tsCalls := n,
                rsLog := [.convert (.zoom zoom)] })
    | .ok basePNG =>
      let i2 := st2.rsCount
      let st3 := { st2 with rsCount := st2.rsCount + 1 }
      match o.pngDims i2 basePNG with
      | .error m =>
          (st3, { thrown := some m, tsCalls := n,
                  rsLog := [.convert (.zoom zoom), .dims none] })
      | .ok (pngWidth, pngHeight) =>
        let newWidth := (pngWidth.div st3.internalScale).div (Frac.ofNat cWidth)
        let newHeight := (pngHeight.div st3.internalScale).div (Frac.ofNat cHeight)
        let width' := max (width : Int) newWidth.ceil
        let height' := max (height : Int) newHeight.ceil
        let iWidth := ((Frac.ofInt width').mul (Frac.ofNat cWidth)).mul st3.internalScale
        let iHeight := ((Frac.ofInt height').mul (Frac.ofNat cHeight)).mul st3.internalScale
        finishRender o st3 identifier equation ekey width' height'
          iWidth iHeight flags basePNG n
          [.convert (.zoom zoom), .dims (some (pngWidth, pngHeight))]
  else
    let iWidth := ((Frac.ofNat width).mul (Frac.ofNat cWidth)).mul st1.internalScale
    let iHeight := ((Frac.ofNat height).mul (Frac.ofNat cHeight)).mul st1.internalScale
    let i1 := st1.rsCount
    let st2 := { st1 with rsCount := st1.rsCount + 1 }
    match o.rsvg i1 svg (.size iWidth iHeight) with
    | .error m =>
        (st2, { thrown := some m, tsCalls := n,
                rsLog := [.convert (.size iWidth iHeight)] })
    | .ok basePNG =>
        finishRender o st2 identifier equation ekey (width : Int) (height : Int)
          iWidth iHeight flags basePNG n [.convert (.size iWidth iHeight)]

/-- Embedding of `processEquation`, the render pipeline: blank-equation
guard, rendered-image cache lookup, typesetting, then `renderWithSVG`. -/
def processEquation (o : Oracle) (st : PState) (identifier equation : String)
    (cWidth cHeight width height flags : Nat) (color : String) :
    PState × Trace :=
  if isJsBlank equation then
    (st, { out := [.error identifier "Empty equation"] })
  else
    let ekey := equationKey equation cWidth width cHeight height flags color
    match st.equationMap.lookup ekey with
    | some obj =>
        (st, { out := [.image identifier obj.width obj.height obj.filename] })
    | none =>
      match equationToSVG o st equation with
      | (.error m, st1, n) => (st1, { thrown := some m, tsCalls := n })
      | (.ok (.error e), st1, n) =>
          (st1, { out := [.error identifier e], tsCalls := n })
      | (.ok (.svg svg0), st1, n) =>
          renderWithSVG o st1 identifier equation ekey cWidth cHeight width
            height flags color svg0 n

/-- Decoded input line, as produced by the reader and consumed by
`processAll`. -/
inductive Request where
  | request (identifier data : String)
      (cellWidth cellHeight width height flags : Nat) (color : String)
  | dscale (scale : Frac)
  | iscale (scale : Frac)
  | other
deriving Repr

/-- Embedding of `processAll`, the dispatch boundary: render requests run the
pipeline with any raised failure caught and converted to an error response;
scale requests mutate the corresponding scale variable; anything else is a
no-op. -/
def processAll (o : Oracle) (st : PState) (req : Request) : PState × Trace :=
  match req with
  | .request identifier data cellWidth cellHeight width height flags color =>
    let r := processEquation o st identifier data cellWidth cellHeight width height flags color
    match r.2.thrown with
    | some m => (r.1, { r.2 with out := r.2.out ++ [.error identifier m], thrown := none })
    | none => r
  | .dscale s => ({ st with dynamicScale := s }, {})
  | .iscale s => ({ st with internalScale := s }, {})
  | .other => (st, {})

/-- Shape of the effects of one `processEquation` run: either exactly one
response is written and nothing is thrown, or nothing is written and an
exception escapes. -/
theorem processEquation_response_shape (o : Oracle) (st : PState)
    (identifier equation : String) (cWidth cHeight width height flags : Nat)
    (color : String) :
    (let r := processEquation o st identifier equation cWidth cHeight width height flags color
    ((r.2.thrown = none ∧ ∃ x, r.2.out = [x] ∧ x.ident = identifier) ∨
      (∃ m, r.2.thrown = some m ∧ r.2.out = []))) := by
  unfold processEquation renderWithSVG finishRender
  dsimp only
  repeat' split
  all_goals
    first
      | exact Or.inl ⟨rfl, _, rfl, rfl⟩
      | exact Or.inr ⟨_, rfl, rfl⟩

/-- Trivial collaborators used to instantiate theorems at concrete inputs. -/
def oW : Oracle where
  typeset := fun _ _ => .ok "<svg viewBox=\"0 0 8 2\">currentColor</svg>"
  rsvg := fun _ _ _ => .ok 0
  pngDims := fun _ _ => .ok (⟨40, 1⟩, ⟨24, 1⟩)
  pngFit := fun _ _ _ _ _ _ => .ok ()
  sha := fun _ => "abcdefgh123"
  imgDir := "/tmp/img"

/-- C7: every render request produces exactly one framed response — each
pipeline path writes one success or one error response, and a failure raised
inside the pipeline is caught at the dispatch boundary and converted to an
error response carrying the failure's message rather than escaping. -/
theorem c7_exactly_one_response (o : Oracle) (st : PState)
    (identifier data : String) (cellWidth cellHeight width height flags : Nat)
    (color : String) (st' : PState) (t : Trace)
    (hrun : processAll o st
      (.request identifier data cellWidth cellHeight width height flags color) = (st', t)) :
    t.thrown = none ∧ ∃ x, t.out = [x] ∧ x.ident = identifier := by
  have hs := processEquation_response_shape o st identifier data cellWidth
    cellHeight width height flags color
  unfold processAll at hrun
  dsimp only at hrun hs
  rcases hs with ⟨hth, x, hout, hid⟩ | ⟨m, hth, hout⟩
  · rw [hth] at hrun
    simp only [] at hrun
    have ht : t = (processEquation o st identifier data cellWidth cellHeight
        width height flags color).2 := by rw [hrun]
    rw [ht]
    exact ⟨hth, x, hout, hid⟩
  · rw [hth] at hrun
    simp only [] at hrun
    injection hrun with h1 h2
    subst h2
    refine ⟨rfl, Output.error identifier m, ?_, rfl⟩
    simp [hout]

/-- C7 witness: a concrete render request (one whose rasterizer call fails,
exercising the catch at the dispatch boundary) yields exactly one response. -/
theorem c7_exactly_one_response_witness :
    (processAll { oW with rsvg := fun _ _ _ => .error "boom" } {}
        (.request "7" "x" 8 16 1 1 0 "red")).2.thrown = none ∧
      ∃ x, (processAll { oW with rsvg := fun _ _ _ => .error "boom" } {}
        (.request "7" "x" 8 16 1 1 0 "red")).2.out = [x] ∧ x.ident = "7" :=
  c7_exactly_one_response { oW with rsvg := fun _ _ _ => .error "boom" } {}
    "7" "x" 8 16 1 1 0 "red"
    (processAll { oW with rsvg := fun _ _ _ => .error "boom" } {}
      (.request "7" "x" 8 16 1 1 0 "red")).1
    (processAll { oW with rsvg := fun _ _ _ => .error "boom" } {}
      (.request "7" "x" 8 16 1 1 0 "red")).2
    rfl

/-- C3: a render request whose equation is empty or whitespace-only is
answered by an error response, leaves the state untouched, and never invokes
the Typesetter or the Rasterizer; the framed response is
`identifier:error:0:0:14:Empty equation`. -/
theorem c3_blank_equation_is_error (o : Oracle) (st : PState)
    (identifier equation : String) (cWidth cHeight width height flags : Nat)
    (color : String) (st' : PState) (t : Trace)
    (hblank : isJsBlank equation = true)
    (hrun : processEquation o st identifier equation cWidth cHeight width
      height flags color = (st', t)) :
    st' = st ∧ t.tsCalls = 0 ∧ t.rsLog = [] ∧
      t.out = [Output.error identifier "Empty equation"] ∧
      t.out.map frameOutput = [identifier ++ ":error:0:0:14:Empty equation"] := by
  unfold processEquation at hrun
  rw [hblank] at hrun
  simp only [if_true] at hrun
  injection hrun with h1 h2
  subst h1
  subst h2
  refine ⟨rfl, rfl, rfl, rfl, ?_⟩
  simp only [List.map, frameOutput]
  rw [String.append_assoc, String.append_assoc, String.append_assoc]
  rfl

/-- C3 witness: the empty equation with identifier `1` produces exactly the
frame `1:error:0:0:14:Empty equation`. -/
theorem c3_blank_equation_is_error_witness :
    (processEquation oW {} "1" "" 8 16 1 1 0 "red").1 = ({} : PState) ∧
      (processEquation oW {} "1" "" 8 16 1 1 0 "red").2.tsCalls = 0 ∧
      (processEquation oW {} "1" "" 8 16 1 1 0 "red").2.rsLog = [] ∧
      (processEquation oW {} "1" "" 8 16 1 1 0 "red").2.out =
        [Output.error "1" "Empty equation"] ∧
      (processEquation oW {} "1" "" 8 16 1 1 0 "red").2.out.map frameOutput =
        ["1:error:0:0:14:Empty equation"] :=
  c3_blank_equation_is_error oW {} "1" "" 8 16 1 1 0 "red" _ _ rfl rfl

/-- C9: a scale-update request changes only the corresponding scale variable:
the typeset cache, rendered-image cache, cleanup list and the other scale are
untouched (so cached entries persist unrevalidated across scale changes), and
no response is written. -/
theorem c9_scale_update_touches_only_scale (o : Oracle) (st : PState) (s : Frac) :
    ((processAll o st (.dscale s)).1.svgCache = st.svgCache ∧
      (processAll o st (.dscale s)).1.equationMap = st.equationMap ∧
      (processAll o st (.dscale s)).1.equations = st.equations ∧
      (processAll o st (.dscale s)).1.internalScale = st.internalScale ∧
      (processAll o st (.dscale s)).1.dynamicScale = s ∧
      (processAll o st (.dscale s)).2 = ({} : Trace)) ∧
    ((processAll o st (.iscale s)).1.svgCache = st.svgCache ∧
      (processAll o st (.iscale s)).1.equationMap = st.equationMap ∧
      (processAll o st (.iscale s)).1.equations = st.equations ∧
      (processAll o st (.iscale s)).1.dynamicScale = st.dynamicScale ∧
      (processAll o st (.iscale s)).1.internalScale = s ∧
      (processAll o st (.iscale s)).2 = ({} : Trace)) :=
  ⟨⟨rfl, rfl, rfl, rfl, rfl, rfl⟩, ⟨rfl, rfl, rfl, rfl, rfl, rfl⟩⟩

/-- Typeset-cache hit: the cached entry is returned unchanged without
invoking the typesetter. -/
theorem equationToSVG_hit (o : Oracle) (st : PState) (equation : String)
    (e : SvgEntry) (h : st.svgCache.lookup equation = some e) :
    equationToSVG o st equation = (.ok e, st, 0) := by
  unfold equationToSVG
  rw [h]

/-- Typeset-cache miss with a successful typesetter call: the markup is
cached and returned. -/
theorem equationToSVG_miss_ok (o : Oracle) (st : PState) (equation s : String)
    (hmiss : st.svgCache.lookup equation = none)
    (hts : o.typeset st.tsCount equation = .ok s) :
    equationToSVG o st equation =
      (.ok (.svg s),
        { st with tsCount := st.tsCount + 1,
                  svgCache := (equation, .svg s) :: st.svgCache }, 1) := by
  unfold equationToSVG
  rw [hmiss]
  dsimp only
  rw [hts]

/-- Typeset-cache miss with a recoverable (`MathError`) failure: the error
message is cached and returned. -/
theorem equationToSVG_miss_matherr (o : Oracle) (st : PState) (equation m : String)
    (hmiss : st.svgCache.lookup equation = none)
    (hts : o.typeset st.tsCount equation = .matherr m) :
    equationToSVG o st equation =
      (.ok (.error m),
        { st with tsCount := st.tsCount + 1,
                  svgCache := (equation, .error m) :: st.svgCache }, 1) := by
  unfold equationToSVG
  rw [hmiss]
  dsimp only
  rw [hts]

/-- Typeset-cache miss with an unrecoverable failure: the exception is
re-raised and nothing is cached. -/
theorem equationToSVG_miss_toolfail (o : Oracle) (st : PState) (equation m : String)
    (hmiss : st.svgCache.lookup equation = none)
    (hts : o.typeset st.tsCount equation = .toolfail m) :
    equationToSVG o st equation = (.error m, { st with tsCount := st.tsCount + 1 }, 1) := by
  unfold equationToSVG
  rw [hmiss]
  dsimp only
  rw [hts]

/-- The typeset lookup never touches the rendered-image cache or the cleanup
list. -/
theorem equationToSVG_frame (o : Oracle) (st : PState) (equation : String) :
    (equationToSVG o st equation).2.1.equationMap = st.equationMap ∧
    (equationToSVG o st equation).2.1.equations = st.equations := by
  unfold equationToSVG
  dsimp only
  repeat' split
  all_goals exact ⟨rfl, rfl⟩

/-- C4: the typeset lookup caches successes and recoverable (malformed-LaTeX)
errors per equation text — the second lookup returns the identical cached
result with zero typesetter invocations — while an unrecoverable failure is
re-raised without being cached, so a retry with the same equation invokes the
typesetter again (and re-raises whatever unrecoverable failure it reports). -/
theorem c4_typeset_cache_policy (o : Oracle) (st : PState) (equation : String)
    (hmiss : st.svgCache.lookup equation = none) :
    (∀ s, o.typeset st.tsCount equation = .ok s →
      equationToSVG o st equation =
        (.ok (.svg s),
          { st with tsCount := st.tsCount + 1,
                    svgCache := (equation, .svg s) :: st.svgCache }, 1) ∧
      equationToSVG o (equationToSVG o st equation).2.1 equation =
        (.ok (.svg s), (equationToSVG o st equation).2.1, 0)) ∧
    (∀ m, o.typeset st.tsCount equation = .matherr m →
      equationToSVG o st equation =
        (.ok (.error m),
          { st with tsCount := st.tsCount + 1,
                    svgCache := (equation, .error m) :: st.svgCache }, 1) ∧
      equationToSVG o (equationToSVG o st equation).2.1 equation =
        (.ok (.error m), (equationToSVG o st equation).2.1, 0)) ∧
    (∀ m, o.typeset st.tsCount equation = .toolfail m →
      equationToSVG o st equation =
        (.error m, { st with tsCount := st.tsCount + 1 }, 1) ∧
      (equationToSVG o st equation).2.1.svgCache = st.svgCache ∧
      (equationToSVG o (equationToSVG o st equation).2.1 equation).2.2 = 1 ∧
      ∀ m2, o.typeset (st.tsCount + 1) equation = .toolfail m2 →
        (equationToSVG o (equationToSVG o st equation).2.1 equation).1 = .error m2) := by
  refine ⟨fun s hts => ?_, fun m hts => ?_, fun m hts => ?_⟩
  · have h1 := equationToSVG_miss_ok o st equation s hmiss hts
    refine ⟨h1, ?_⟩
    rw [h1]
    exact equationToSVG_hit o _ equation (.svg s) (by simp [List.lookup])
  · have h1 := equationToSVG_miss_matherr o st equation m hmiss hts
    refine ⟨h1, ?_⟩
    rw [h1]
    exact equationToSVG_hit o _ equation (.error m) (by simp [List.lookup])
  · have h1 := equationToSVG_miss_toolfail o st equation m hmiss hts
    refine ⟨h1, ?_, ?_, fun m2 hts2 => ?_⟩
    · rw [h1]
    · rw [h1]
      have hmiss2 : ({ st with tsCount := st.tsCount + 1 } : PState).svgCache.lookup equation = none := hmiss
      unfold equationToSVG
      rw [hmiss2]
      dsimp only
      split <;> rfl
    · rw [h1]
      have h2 := equationToSVG_miss_toolfail o
        { st with tsCount := st.tsCount + 1 } equation m2 hmiss hts2
      dsimp only
      rw [h2]

/-- Oracle whose typesetter reports a recoverable `MathError` on its first
call and an unrecoverable failure afterwards. -/
def oM : Oracle :=
  { oW with typeset := fun n _ => if n = 0 then .matherr "bad" else .toolfail "t" }

/-- C4 witness: a concrete malformed equation is answered from the cache on
the second lookup, with the identical error and no typesetter call. -/
theorem c4_typeset_cache_policy_witness :
    equationToSVG oM ({} : PState) "x" =
      (.ok (.error "bad"),
        { ({} : PState) with tsCount := 1, svgCache := [("x", .error "bad")] }, 1) ∧
    equationToSVG oM (equationToSVG oM ({} : PState) "x").2.1 "x" =
      (.ok (.error "bad"), (equationToSVG oM ({} : PState) "x").2.1, 0) :=
  (c4_typeset_cache_policy oM {} "x" rfl).2.1 "bad" rfl

/-- Atomicity of the pipeline tail: either an exception escapes with no
response, no file written, and the rendered-image cache and cleanup list
untouched, or the run succeeds, writes exactly one file, and appends one
entry (referring to that file) to both the cleanup list and the cache. -/
theorem renderWithSVG_atomic (o : Oracle) (st1 : PState)
    (identifier equation ekey : String) (cWidth cHeight width height flags : Nat)
    (color svg0 : String) (n : Nat) (st' : PState) (t : Trace)
    (hrun : renderWithSVG o st1 identifier equation ekey cWidth cHeight
      width height flags color svg0 n = (st', t)) :
    ((st'.equationMap = st1.equationMap ∧ st'.equations = st1.equations ∧
        t.written = [] ∧ (∃ m, t.thrown = some m) ∧ t.out = []) ∨
      (∃ obj : EquationObj,
        t.written = [obj.filename] ∧
        st'.equations = st1.equations ++ [obj] ∧
        st'.equationMap = (ekey, obj) :: st1.equationMap ∧
        t.out = [Output.image identifier obj.width obj.height obj.filename] ∧
        t.thrown = none)) := by
  unfold renderWithSVG finishRender at hrun
  dsimp only at hrun
  repeat' split at hrun
  all_goals (injection hrun with h1 h2; subst h1; subst h2)
  all_goals try exact Or.inl ⟨rfl, rfl, rfl, ⟨_, rfl⟩, rfl⟩
  all_goals exact Or.inr ⟨_, rfl, rfl, rfl, rfl, rfl⟩

/-- C10: render failure is atomic with respect to the rendered-image cache
and the cleanup list — on every error path (blank equation, typeset error,
rasterize/fit failure) neither is modified and no file is recorded as
written, while an entry is appended to both only on a successful run, and it
refers to the single file written by that run. -/
theorem c10_failure_atomicity (o : Oracle) (st : PState)
    (identifier equation : String) (cWidth cHeight width height flags : Nat)
    (color : String) (st' : PState) (t : Trace)
    (hrun : processEquation o st identifier equation cWidth cHeight width
      height flags color = (st', t)) :
    (st'.equationMap = st.equationMap ∧ st'.equations = st.equations ∧
      t.written = []) ∨
    (∃ obj : EquationObj,
      t.written = [obj.filename] ∧
      st'.equations = st.equations ++ [obj] ∧
      st'.equationMap =
        (equationKey equation cWidth width cHeight height flags color, obj) ::
          st.equationMap ∧
      t.out = [Output.image identifier obj.width obj.height obj.filename] ∧
      t.thrown = none) := by
  unfold processEquation at hrun
  by_cases hb : isJsBlank equation
  · rw [hb] at hrun
    simp only [if_true] at hrun
    injection hrun with h1 h2
    subst h1
    subst h2
    exact Or.inl ⟨rfl, rfl, rfl⟩
  · rw [Bool.not_eq_true] at hb
    rw [hb] at hrun
    simp only [Bool.false_eq_true, if_false] at hrun
    rcases hlk : (st.equationMap.lookup
        (equationKey equation cWidth width cHeight height flags color)) with _ | obj
    · rw [hlk] at hrun
      dsimp only at hrun
      rcases hE : equationToSVG o st equation with ⟨res, st1, n⟩
      have hfr := equationToSVG_frame o st equation
      rw [hE] at hfr hrun
      dsimp only at hfr
      rcases res with m | entry
      · injection hrun with h1 h2
        subst h1
        subst h2
        exact Or.inl ⟨hfr.1, hfr.2, rfl⟩
      · rcases entry with s | e
        · have ha := renderWithSVG_atomic o st1 identifier equation
            (equationKey equation cWidth width cHeight height flags color)
            cWidth cHeight width height flags color s n st' t hrun
          rcases ha with ⟨hm, he, hw, hth, hout⟩ | ⟨obj, hw, he, hm, hout, hth⟩
          · exact Or.inl ⟨hm.trans hfr.1, he.trans hfr.2, hw⟩
          · exact Or.inr ⟨obj, hw, he.trans (by rw [hfr.2]),
              hm.trans (by rw [hfr.1]), hout, hth⟩
        · injection hrun with h1 h2
          subst h1
          subst h2
          exact Or.inl ⟨hfr.1, hfr.2, rfl⟩
    · rw [hlk] at hrun
      dsimp only at hrun
      injection hrun with h1 h2
      subst h1
      subst h2
      exact Or.inl ⟨rfl, rfl, rfl⟩

/-- C10 witness: a concrete failing run (rasterizer failure) leaves the
rendered-image cache and cleanup list untouched. -/
theorem c10_failure_atomicity_witness :
    (((processEquation { oW with rsvg := fun _ _ _ => .error "boom" } {} "1"
        "x" 8 16 1 1 0 "red").1.equationMap = ({} : PState).equationMap ∧
      (processEquation { oW with rsvg := fun _ _ _ => .error "boom" } {} "1"
        "x" 8 16 1 1 0 "red").1.equations = ({} : PState).equations ∧
      (processEquation { oW with rsvg := fun _ _ _ => .error "boom" } {} "1"
        "x" 8 16 1 1 0 "red").2.written = []) ∨
    (∃ obj : EquationObj,
      (processEquation { oW with rsvg := fun _ _ _ => .error "boom" } {} "1"
        "x" 8 16 1 1 0 "red").2.written = [obj.filename] ∧
      (processEquation { oW with rsvg := fun _ _ _ => .error "boom" } {} "1"
        "x" 8 16 1 1 0 "red").1.equations = ({} : PState).equations ++ [obj] ∧
      (processEquation { oW with rsvg := fun _ _ _ => .error "boom" } {} "1"
        "x" 8 16 1 1 0 "red").1.equationMap =
        (equationKey "x" 8 1 16 1 0 "red", obj) :: ({} : PState).equationMap ∧
      (processEquation { oW with rsvg := fun _ _ _ => .error "boom" } {} "1"
        "x" 8 16 1 1 0 "red").2.out =
          [Output.image "1" obj.width obj.height obj.filename] ∧
      (processEquation { oW with rsvg := fun _ _ _ => .error "boom" } {} "1"
        "x" 8 16 1 1 0 "red").2.thrown = none)) :=
  c10_failure_atomicity { oW with rsvg := fun _ _ _ => .error "boom" } {} "1"
    "x" 8 16 1 1 0 "red" _ _ rfl

/-- C1: if a render request succeeds with an image response, then processing
a second request with the identical parameter tuple (equation, cellWidth,
width, cellHeight, height, flags, color) from the resulting state invokes
neither the Typesetter nor the Rasterizer (the trace records zero typesetter
calls and no rasterizer calls) and answers with the same width, height and
filename, leaving the state unchanged. -/
theorem c1_identical_request_served_from_cache (o : Oracle) (st : PState)
    (id1 id2 equation : String) (cWidth cHeight width height flags : Nat)
    (color : String) (st1 : PState) (t1 : Trace) (wR hR : Int) (fn : String)
    (hrun1 : processEquation o st id1 equation cWidth cHeight width height
      flags color = (st1, t1))
    (hout1 : t1.out = [Output.image id1 wR hR fn]) :
    processEquation o st1 id2 equation cWidth cHeight width height flags
      color = (st1, { out := [Output.image id2 wR hR fn] }) := by
  have hkey : isJsBlank equation = false ∧
      ∃ obj : EquationObj,
        st1.equationMap.lookup
          (equationKey equation cWidth width cHeight height flags color) =
            some obj ∧
        obj.width = wR ∧ obj.height = hR ∧ obj.filename = fn := by
    unfold processEquation at hrun1
    by_cases hb : isJsBlank equation
    · rw [hb] at hrun1
      simp only [if_true] at hrun1
      injection hrun1 with h1 h2
      subst h2
      simp at hout1
    · rw [Bool.not_eq_true] at hb
      rw [hb] at hrun1
      simp only [Bool.false_eq_true, if_false] at hrun1
      refine ⟨hb, ?_⟩
      rcases hlk : st.equationMap.lookup
          (equationKey equation cWidth width cHeight height flags color)
        with _ | obj
      · rw [hlk] at hrun1
        dsimp only at hrun1
        rcases hE : equationToSVG o st equation with ⟨res, stm, nn⟩
        rw [hE] at hrun1
        rcases res with m | entry
        · injection hrun1 with h1 h2
          subst h2
          simp at hout1
        · rcases entry with sv | e
          · have ha := renderWithSVG_atomic o stm id1 equation
              (equationKey equation cWidth width cHeight height flags color)
              cWidth cHeight width height flags color sv nn st1 t1 hrun1
            rcases ha with ⟨_, _, _, _, hout⟩ | ⟨obj, _, _, hm2, hout2, _⟩
            · rw [hout] at hout1
              exact absurd hout1 (by simp)
            · have hfields := hout2.symm.trans hout1
              simp only [List.cons.injEq, Output.image.injEq, and_true] at hfields
              obtain ⟨-, hw2, hh2, hf2⟩ := hfields
              refine ⟨obj, ?_, hw2, hh2, hf2⟩
              rw [hm2]
              simp [List.lookup]
          · injection hrun1 with h1 h2
            subst h2
            simp at hout1
      · rw [hlk] at hrun1
        dsimp only at hrun1
        injection hrun1 with h1 h2
        subst h1
        subst h2
        simp only [List.cons.injEq, Output.image.injEq, and_true] at hout1
        obtain ⟨-, hw2, hh2, hf2⟩ := hout1
        exact ⟨obj, hlk, hw2, hh2, hf2⟩
  obtain ⟨hb, obj, hlk2, hw, hh, hf⟩ := hkey
  unfold processEquation
  rw [hb]
  simp only [Bool.false_eq_true, if_false]
  rw [hlk2]
  dsimp only
  rw [hw, hh, hf]

/-- State whose rendered-image cache already holds an entry for a concrete
request tuple. -/
def stC : PState :=
  { equationMap := [(equationKey "x" 1 1 1 1 0 "red", ⟨"x", "f.png", 1, 1⟩)] }

/-- C1 witness: a repeated concrete request is answered with the identical
width, height and filename and leaves the state unchanged, with zero
typesetter and rasterizer calls recorded in the trace. -/
theorem c1_identical_request_served_from_cache_witness :
    processEquation oW stC "b" "x" 1 1 1 1 0 "red" =
      (stC, { out := [Output.image "b" 1 1 "f.png"] }) :=
  c1_identical_request_served_from_cache oW stC "a" "b" "x" 1 1 1 1 0 "red"
    stC { out := [Output.image "a" 1 1 "f.png"] } 1 1 "f.png" rfl rfl

/-- Value of an embedded natural number. -/
theorem Frac.val_ofNat (n : Nat) : (Frac.ofNat n).val = (n : ℚ) := by
  simp [Frac.val, Frac.ofNat]

/-- Value of an embedded integer. -/
theorem Frac.val_ofInt (n : Int) : (Frac.ofInt n).val = (n : ℚ) := by
  simp [Frac.val, Frac.ofInt]

/-- Multiplication of fractions is multiplication of values. -/
theorem Frac.val_mul (a b : Frac) : (a.mul b).val = a.val * b.val := by
  unfold Frac.val Frac.mul
  push_cast
  rw [div_mul_div_comm]

/-- Division of fractions is division of values. -/
theorem Frac.val_div (a b : Frac) : (a.div b).val = a.val / b.val := by
  have key : ∀ x y z w : ℚ, x / y / (z / w) = x * w / (y * z) := by
    intro x y z w
    rw [div_eq_mul_inv (x / y), inv_div, div_mul_div_comm]
  unfold Frac.val Frac.div
  dsimp only
  split
  · push_cast
    rw [neg_div_neg_eq, key]
  · push_cast
    rw [key]

/-- Floor of an integer quotient cast to `ℚ`, for a positive denominator. -/
theorem int_floor_cast_div (m d : Int) (hd : 0 < d) :
    ⌊(m : ℚ) / (d : ℚ)⌋ = m / d := by
  have hd' : (0 : ℚ) < (d : ℚ) := by exact_mod_cast hd
  rw [Int.floor_eq_iff]
  constructor
  · rw [le_div_iff₀ hd']
    exact_mod_cast Int.ediv_mul_le m (ne_of_gt hd)
  · rw [div_lt_iff₀ hd']
    exact_mod_cast Int.lt_ediv_add_one_mul_self m hd

/-- With a positive denominator, `Frac.ceil` is the ceiling of the value. -/
theorem Frac.ceil_val (f : Frac) (hd : 0 < f.den) : f.ceil = ⌈f.val⌉ := by
  unfold Frac.ceil Frac.val
  have h1 : ⌊-((f.num : ℚ) / (f.den : ℚ))⌋ = -⌈(f.num : ℚ) / (f.den : ℚ)⌉ :=
    Int.floor_neg
  have h2 : ⌊((-f.num : ℤ) : ℚ) / ((f.den : ℤ) : ℚ)⌋ = -f.num / f.den :=
    int_floor_cast_div (-f.num) f.den hd
  rw [show ((-f.num : ℤ) : ℚ) = -((f.num : ℤ) : ℚ) by push_cast; ring,
    neg_div] at h2
  omega

/-- The typeset lookup never changes the scale state. -/
theorem equationToSVG_scales (o : Oracle) (st : PState) (equation : String) :
    (equationToSVG o st equation).2.1.internalScale = st.internalScale ∧
    (equationToSVG o st equation).2.1.dynamicScale = st.dynamicScale := by
  unfold equationToSVG
  dsimp only
  repeat' split
  all_goals exact ⟨rfl, rfl⟩

/-- Fixed-mode sizing: every `rsvgConvert` call made by the pipeline tail
requests exactly the physical pixel box computed as
`width*cellWidth*internalScale` by `height*cellHeight*internalScale`. -/
theorem renderWithSVG_fixed_convert (o : Oracle) (st1 : PState)
    (identifier equation ekey : String) (cWidth cHeight width height flags : Nat)
    (color svg0 : String) (n : Nat) (st' : PState) (t : Trace)
    (hfix : flags.land 1 = 0)
    (hrun : renderWithSVG o st1 identifier equation ekey cWidth cHeight
      width height flags color svg0 n = (st', t))
    (sp : RasterSpec) (hmem : RasterCall.convert sp ∈ t.rsLog) :
    sp = .size (((Frac.ofNat width).mul (Frac.ofNat cWidth)).mul st1.internalScale)
      (((Frac.ofNat height).mul (Frac.ofNat cHeight)).mul st1.internalScale) := by
  have hfixB : (flags.land 1 != 0) = false := by simp [hfix]
  unfold renderWithSVG finishRender at hrun
  rw [hfixB] at hrun
  simp only [Bool.false_eq_true, if_false] at hrun
  repeat' split at hrun
  all_goals (injection hrun with h1 h2; subst h1; subst h2)
  all_goals simp_all

/-- C2: in fixed mode (dynamic-fit flag clear), with positive integer
inputs, every rasterizer conversion requested by the pipeline asks for
physical pixel dimensions exactly `width*cellWidth*internalScale` by
`height*cellHeight*internalScale`. -/
theorem c2_fixed_mode_dimensions (o : Oracle) (st : PState)
    (identifier equation : String) (cWidth cHeight width height flags : Nat)
    (color : String) (st' : PState) (t : Trace)
    (hfix : flags.land 1 = 0)
    (hposW : 0 < width) (hposH : 0 < height)
    (hposCW : 0 < cWidth) (hposCH : 0 < cHeight)
    (hrun : processEquation o st identifier equation cWidth cHeight width
      height flags color = (st', t))
    (sp : RasterSpec) (hmem : RasterCall.convert sp ∈ t.rsLog) :
    ∃ a b : Frac, sp = .size a b ∧
      a.val = (width : ℚ) * (cWidth : ℚ) * st.internalScale.val ∧
      b.val = (height : ℚ) * (cHeight : ℚ) * st.internalScale.val := by
  unfold processEquation at hrun
  by_cases hb : isJsBlank equation
  · rw [hb] at hrun
    simp only [if_true] at hrun
    injection hrun with h1 h2
    subst h2
    simp at hmem
  · rw [Bool.not_eq_true] at hb
    rw [hb] at hrun
    simp only [Bool.false_eq_true, if_false] at hrun
    rcases hlk : st.equationMap.lookup
        (equationKey equation cWidth width cHeight height flags color)
      with _ | obj
    · rw [hlk] at hrun
      dsimp only at hrun
      rcases hE : equationToSVG o st equation with ⟨res, stm, nn⟩
      have hsc := equationToSVG_scales o st equation
      rw [hE] at hsc hrun
      dsimp only at hsc
      rcases res with m | entry
      · injection hrun with h1 h2
        subst h2
        simp at hmem
      · rcases entry with sv | e
        · have hc := renderWithSVG_fixed_convert o stm identifier equation
            (equationKey equation cWidth width cHeight height flags color)
            cWidth cHeight width height flags color sv nn st' t hfix hrun sp hmem
          refine ⟨_, _, hc, ?_, ?_⟩
          · rw [Frac.val_mul, Frac.val_mul, Frac.val_ofNat, Frac.val_ofNat, hsc.1]
          · rw [Frac.val_mul, Frac.val_mul, Frac.val_ofNat, Frac.val_ofNat, hsc.1]
        · injection hrun with h1 h2
          subst h2
          simp at hmem
    · rw [hlk] at hrun
      dsimp only at hrun
      injection hrun with h1 h2
      subst h2
      simp at hmem

/-- C2 witness: a concrete fixed-mode request rasterizes at exactly
2*8 by 3*16 physical pixels. -/
theorem c2_fixed_mode_dimensions_witness :
    ∃ a b : Frac,
      RasterSpec.size (⟨16, 1⟩ : Frac) (⟨48, 1⟩ : Frac) = .size a b ∧
      a.val = (2 : ℚ) * (8 : ℚ) * (PState.internalScale {}).val ∧
      b.val = (3 : ℚ) * (16 : ℚ) * (PState.internalScale {}).val :=
  c2_fixed_mode_dimensions oW {} "1" "x" 8 16 2 3 0 "red"
    (processEquation oW {} "1" "x" 8 16 2 3 0 "red").1
    (processEquation oW {} "1" "x" 8 16 2 3 0 "red").2
    rfl (by decide) (by decide) (by decide) (by decide) rfl
    (.size ⟨16, 1⟩ ⟨48, 1⟩) (by decide)

/-- Dynamic-mode sizing at the `Frac` level: the zoom handed to
`rsvgConvert` is `10*dynamicScale*cellHeight*internalScale/96`, and on a
successful run the answered cell spans are the maximum of the requested
spans and the ceiling of the natural spans. -/
theorem renderWithSVG_dynamic (o : Oracle) (st1 : PState)
    (identifier equation ekey : String) (cWidth cHeight width height flags : Nat)
    (color svg0 : String) (n : Nat) (st' : PState) (t : Trace)
    (hdyn : (flags.land 1 != 0) = true)
    (hrun : renderWithSVG o st1 identifier equation ekey cWidth cHeight
      width height flags color svg0 n = (st', t)) :
    (∀ z rest, t.rsLog = .convert (.zoom z) :: rest →
      z = ((((Frac.ofNat 10).mul st1.dynamicScale).mul
        (Frac.ofNat cHeight)).mul st1.internalScale).div (Frac.ofNat 96)) ∧
    (∀ z pW pH fitfn iW iH ctr,
      t.rsLog = [.convert (.zoom z), .dims (some (pW, pH)),
        .fit fitfn iW iH ctr] →
      ∀ xid xw xh xfn, t.out = [Output.image xid xw xh xfn] →
      xw = max (width : Int)
        (Frac.ceil ((pW.div st1.internalScale).div (Frac.ofNat cWidth))) ∧
      xh = max (height : Int)
        (Frac.ceil ((pH.div st1.internalScale).div (Frac.ofNat cHeight)))) := by
  unfold renderWithSVG finishRender at hrun
  rw [hdyn] at hrun
  simp only [if_true] at hrun
  repeat' split at hrun
  all_goals (injection hrun with h1 h2; subst h1; subst h2)
  all_goals refine ⟨?_, ?_⟩
  all_goals
    first
    | (intro z rest hlog
       try dsimp only at hlog
       simp only [List.cons_append, List.nil_append, List.cons.injEq,
         RasterCall.convert.injEq, RasterSpec.zoom.injEq] at hlog
       exact hlog.1.symm)
    | (intro z pW pH fitfn iW iH ctr hlog xid xw xh xfn hout
       simp_all)

/-- Division of well-formed fractions has a positive denominator. -/
theorem Frac.div_den_pos (a b : Frac) (ha : a.den ≠ 0) (hb : b.num ≠ 0) :
    0 < (a.div b).den := by
  unfold Frac.div
  dsimp only
  have hne : a.den * b.num ≠ 0 := Int.mul_ne_zero ha hb
  split
  all_goals dsimp only
  · omega
  · omega

/-- C5: in dynamic-fit mode the zoom handed to the Rasterizer equals
`10*dynamicScale*cellHeight*internalScale/96`, and on a successful run the
final cell spans equal the maximum of the requested spans and the ceiling of
the natural spans (`naturalPixel/internalScale/cellSize`), hence are never
smaller than the requested width and height. -/
theorem c5_dynamic_mode_sizing (o : Oracle) (st : PState)
    (identifier equation : String) (cWidth cHeight width height flags : Nat)
    (color : String) (st' : PState) (t : Trace)
    (hdyn : flags.land 1 ≠ 0)
    (hposCW : 0 < cWidth) (hposCH : 0 < cHeight)
    (hscale : st.internalScale.num ≠ 0)
    (hrun : processEquation o st identifier equation cWidth cHeight width
      height flags color = (st', t)) :
    (∀ z rest, t.rsLog = .convert (.zoom z) :: rest →
      z.val = 10 * st.dynamicScale.val * (cHeight : ℚ) *
        st.internalScale.val / 96) ∧
    (∀ z pW pH fitfn iW iH ctr,
      t.rsLog = [.convert (.zoom z), .dims (some (pW, pH)),
        .fit fitfn iW iH ctr] →
      0 < pW.den → 0 < pH.den →
      ∀ xid xw xh xfn, t.out = [Output.image xid xw xh xfn] →
      xw = max (width : Int) ⌈pW.val / st.internalScale.val / (cWidth : ℚ)⌉ ∧
      xh = max (height : Int) ⌈pH.val / st.internalScale.val / (cHeight : ℚ)⌉ ∧
      (width : Int) ≤ xw ∧ (height : Int) ≤ xh) := by
  have hdynB : (flags.land 1 != 0) = true := by simpa using hdyn
  unfold processEquation at hrun
  by_cases hb : isJsBlank equation
  · rw [hb] at hrun
    simp only [if_true] at hrun
    injection hrun with h1 h2
    subst h2
    exact ⟨fun z rest hlog => by simp at hlog,
      fun z pW pH fitfn iW iH ctr hlog => by simp at hlog⟩
  · rw [Bool.not_eq_true] at hb
    rw [hb] at hrun
    simp only [Bool.false_eq_true, if_false] at hrun
    rcases hlk : st.equationMap.lookup
        (equationKey equation cWidth width cHeight height flags color)
      with _ | obj
    · rw [hlk] at hrun
      dsimp only at hrun
      rcases hE : equationToSVG o st equation with ⟨res, stm, nn⟩
      have hsc := equationToSVG_scales o st equation
      rw [hE] at hsc hrun
      dsimp only at hsc
      rcases res with m | entry
      · injection hrun with h1 h2
        subst h2
        exact ⟨fun z rest hlog => by simp at hlog,
          fun z pW pH fitfn iW iH ctr hlog => by simp at hlog⟩
      · rcases entry with sv | e
        · have hd := renderWithSVG_dynamic o stm identifier equation
            (equationKey equation cWidth width cHeight height flags color)
            cWidth cHeight width height flags color sv nn st' t hdynB hrun
          constructor
          · intro z rest hlog
            have hz := hd.1 z rest hlog
            rw [hz, Frac.val_div, Frac.val_mul, Frac.val_mul, Frac.val_mul,
              Frac.val_ofNat, Frac.val_ofNat, Frac.val_ofNat, hsc.1, hsc.2]
            push_cast
            ring
          · intro z pW pH fitfn iW iH ctr hlog hdW hdH xid xw xh xfn hout
            have hwh := hd.2 z pW pH fitfn iW iH ctr hlog xid xw xh xfn hout
            have hin : 0 < (pW.div stm.internalScale).den :=
              Frac.div_den_pos pW stm.internalScale (by omega)
                (by rw [hsc.1]; exact hscale)
            have hposW : 0 < ((pW.div stm.internalScale).div
                (Frac.ofNat cWidth)).den :=
              Frac.div_den_pos _ (Frac.ofNat cWidth) (by omega)
                (by simp [Frac.ofNat]; omega)
            have hin2 : 0 < (pH.div stm.internalScale).den :=
              Frac.div_den_pos pH stm.internalScale (by omega)
                (by rw [hsc.1]; exact hscale)
            have hposH : 0 < ((pH.div stm.internalScale).div
                (Frac.ofNat cHeight)).den :=
              Frac.div_den_pos _ (Frac.ofNat cHeight) (by omega)
                (by simp [Frac.ofNat]; omega)
            have hcw : Frac.ceil ((pW.div stm.internalScale).div
                (Frac.ofNat cWidth)) =
                ⌈pW.val / st.internalScale.val / (cWidth : ℚ)⌉ := by
              rw [Frac.ceil_val _ hposW, Frac.val_div, Frac.val_div,
                Frac.val_ofNat, hsc.1]
            have hch : Frac.ceil ((pH.div stm.internalScale).div
                (Frac.ofNat cHeight)) =
                ⌈pH.val / st.internalScale.val / (cHeight : ℚ)⌉ := by
              rw [Frac.ceil_val _ hposH, Frac.val_div, Frac.val_div,
                Frac.val_ofNat, hsc.1]
            refine ⟨by rw [hwh.1, hcw], by rw [hwh.2, hch], ?_, ?_⟩
            · rw [hwh.1]
              exact le_max_left _ _
            · rw [hwh.2]
              exact le_max_left _ _
        · injection hrun with h1 h2
          subst h2
          exact ⟨fun z rest hlog => by simp at hlog,
            fun z pW pH fitfn iW iH ctr hlog => by simp at hlog⟩
    · rw [hlk] at hrun
      dsimp only at hrun
      injection hrun with h1 h2
      subst h2
      exact ⟨fun z rest hlog => by simp at hlog,
        fun z pW pH fitfn iW iH ctr hlog => by simp at hlog⟩

/-- C5 witness: a concrete dynamic-mode run satisfies the zoom formula and
span clamping. -/
theorem c5_dynamic_mode_sizing_witness :
    (∀ z rest, (processEquation oW {} "1" "x" 8 16 1 2 1 "red").2.rsLog =
        .convert (.zoom z) :: rest →
      z.val = 10 * (PState.dynamicScale {}).val * (16 : ℚ) *
        (PState.internalScale {}).val / 96) ∧
    (∀ z pW pH fitfn iW iH ctr,
      (processEquation oW {} "1" "x" 8 16 1 2 1 "red").2.rsLog =
        [.convert (.zoom z), .dims (some (pW, pH)), .fit fitfn iW iH ctr] →
      0 < pW.den → 0 < pH.den →
      ∀ xid xw xh xfn, (processEquation oW {} "1" "x" 8 16 1 2 1 "red").2.out =
        [Output.image xid xw xh xfn] →
      xw = max (1 : Int) ⌈pW.val / (PState.internalScale {}).val / (8 : ℚ)⌉ ∧
      xh = max (2 : Int) ⌈pH.val / (PState.internalScale {}).val / (16 : ℚ)⌉ ∧
      (1 : Int) ≤ xw ∧ (2 : Int) ≤ xh) :=
  c5_dynamic_mode_sizing oW {} "1" "x" 8 16 1 2 1 "red"
    (processEquation oW {} "1" "x" 8 16 1 2 1 "red").1
    (processEquation oW {} "1" "x" 8 16 1 2 1 "red").2
    (by decide) (by decide) (by decide) (by decide) rfl

/-- Decimal digit characters are digits. -/
theorem digitChar_isDigit (m : Nat) (h : m < 10) :
    (Nat.digitChar m).isDigit = true := by
  interval_cases m <;> decide

/-- Numeric value of a decimal digit character. -/
theorem digitVal_digitChar (m : Nat) (h : m < 10) :
    (Nat.digitChar m).toNat - 48 = m := by
  interval_cases m <;> decide

/-- All characters produced by `Nat.toDigitsCore` in base 10 are digits. -/
theorem toDigitsCore_digits (fuel : Nat) :
    ∀ (n : Nat) (ds : List Char), (∀ c ∈ ds, c.isDigit = true) →
      ∀ c ∈ Nat.toDigitsCore 10 fuel n ds, c.isDigit = true := by
  induction fuel with
  | zero =>
    intro n ds hds c hc
    simp only [Nat.toDigitsCore] at hc
    exact hds c hc
  | succ fuel ih =>
    intro n ds hds c hc
    simp only [Nat.toDigitsCore] at hc
    by_cases h0 : n / 10 = 0
    · rw [if_pos h0] at hc
      rcases List.mem_cons.mp hc with h | h
      · rw [h]
        exact digitChar_isDigit _ (Nat.mod_lt _ (by norm_num))
      · exact hds c h
    · rw [if_neg h0] at hc
      refine ih (n / 10) _ ?_ c hc
      intro c' hc'
      rcases List.mem_cons.mp hc' with h | h
      · rw [h]
        exact digitChar_isDigit _ (Nat.mod_lt _ (by norm_num))
      · exact hds c' h

/-- Accumulator step of the decimal evaluation of a digit list. -/
def digitStep (a : Nat) (c : Char) : Nat := a * 10 + (c.toNat - 48)

/-- Evaluating the digit list produced by `Nat.toDigitsCore` recovers the
encoded number. -/
theorem toDigitsCore_val (fuel : Nat) :
    ∀ (n : Nat) (ds : List Char), n < 10 ^ fuel →
      ∃ k, ∀ a : Nat,
        (Nat.toDigitsCore 10 fuel n ds).foldl digitStep a =
          ds.foldl digitStep (a * 10 ^ k + n) := by
  induction fuel with
  | zero =>
    intro n ds hn
    have hn0 : n = 0 := by simpa using hn
    subst hn0
    refine ⟨0, fun a => ?_⟩
    simp [Nat.toDigitsCore]
  | succ fuel ih =>
    intro n ds hn
    by_cases h0 : n / 10 = 0
    · refine ⟨1, fun a => ?_⟩
      simp only [Nat.toDigitsCore]
      rw [if_pos h0, List.foldl_cons]
      have hm : n % 10 = n := by omega
      unfold digitStep
      rw [digitVal_digitChar _ (Nat.mod_lt _ (by norm_num)), hm, pow_one]
    · obtain ⟨k, hk⟩ := ih (n / 10) (Nat.digitChar (n % 10) :: ds) (by
        rw [Nat.div_lt_iff_lt_mul (by norm_num)]
        rw [← pow_succ]
        exact hn)
      refine ⟨k + 1, fun a => ?_⟩
      simp only [Nat.toDigitsCore]
      rw [if_neg h0, hk a, List.foldl_cons]
      congr 1
      unfold digitStep
      rw [digitVal_digitChar _ (Nat.mod_lt _ (by norm_num)), pow_succ]
      have hdm := Nat.div_add_mod n 10
      ring_nf
      omega

/-- Decimal rendering of naturals is injective. -/
theorem natRepr_injective (m n : Nat) (h : Nat.repr m = Nat.repr n) :
    m = n := by
  have hd : Nat.toDigits 10 m = Nat.toDigits 10 n := congrArg String.data h
  have hm : m < 10 ^ (m + 1) :=
    lt_of_lt_of_le (Nat.lt_pow_self (by norm_num) m)
      (Nat.pow_le_pow_right (by norm_num) (Nat.le_succ m))
  have hn : n < 10 ^ (n + 1) :=
    lt_of_lt_of_le (Nat.lt_pow_self (by norm_num) n)
      (Nat.pow_le_pow_right (by norm_num) (Nat.le_succ n))
  obtain ⟨k1, h1⟩ := toDigitsCore_val (m + 1) m [] hm
  obtain ⟨k2, h2⟩ := toDigitsCore_val (n + 1) n [] hn
  have e1 : (Nat.toDigits 10 m).foldl digitStep 0 = m := by
    rw [show Nat.toDigits 10 m = Nat.toDigitsCore 10 (m + 1) m [] from rfl,
      h1 0]
    simp
  have e2 : (Nat.toDigits 10 n).foldl digitStep 0 = n := by
    rw [show Nat.toDigits 10 n = Nat.toDigitsCore 10 (n + 1) n [] from rfl,
      h2 0]
    simp
  rw [← e1, ← e2, hd]

/-- All characters of the decimal rendering of a natural are digits. -/
theorem repr_chars_digit (n : Nat) :
    ∀ c ∈ (Nat.repr n).data, c.isDigit = true := fun c hc =>
  toDigitsCore_digits (n + 1) n [] (by simp) c hc

/-- A non-digit character does not occur in a decimal rendering. -/
theorem not_mem_repr (n : Nat) (ch : Char) (hch : ch.isDigit = false) :
    ch ∉ (Nat.repr n).data := fun hm => by
  have := repr_chars_digit n ch hm
  rw [hch] at this
  exact absurd this (by simp)

/-- Unique decomposition at a separator absent from both leading parts. -/
theorem splitUniqL (d : Char) (A : List Char) :
    ∀ (B C D : List Char), d ∉ A → d ∉ C → A ++ d :: B = C ++ d :: D →
      A = C ∧ B = D := by
  induction A with
  | nil =>
    intro B C D hA hC h
    cases C with
    | nil =>
      simp only [List.nil_append, List.cons.injEq] at h
      exact ⟨rfl, h.2⟩
    | cons c C' =>
      simp only [List.nil_append, List.cons_append, List.cons.injEq] at h
      obtain ⟨h1, h2⟩ := h
      subst h1
      exact absurd (List.mem_cons_self _ _) hC
  | cons a A' ih =>
    intro B C D hA hC h
    cases C with
    | nil =>
      simp only [List.cons_append, List.nil_append, List.cons.injEq] at h
      obtain ⟨h1, h2⟩ := h
      exact absurd (by rw [← h1]; exact List.mem_cons_self _ _) hA
    | cons c C' =>
      simp only [List.cons_append, List.cons.injEq] at h
      obtain ⟨h1, h2⟩ := h
      have hA' : d ∉ A' := fun hm => hA (List.mem_cons_of_mem _ hm)
      have hC' : d ∉ C' := fun hm => hC (List.mem_cons_of_mem _ hm)
      obtain ⟨h3, h4⟩ := ih B C' D hA' hC' h2
      exact ⟨by rw [h1, h3], h4⟩

/-- Character list underlying a cache key. -/
theorem equationKey_data (e : String) (cw w ch h f : Nat) (c : String) :
    (equationKey e cw w ch h f c).data =
      e.data ++ ['_'] ++ (Nat.repr cw).data ++ ['*'] ++ (Nat.repr w).data ++
        ['x'] ++ (Nat.repr ch).data ++ ['*'] ++ (Nat.repr h).data ++ ['_'] ++
        (Nat.repr f).data ++ ['_'] ++ c.data := rfl

/-- C6 counterexample: the rendered-image cache key is not injective over
the request fields — two requests differing in equation and color share the
same key, so they share one cache entry. -/
theorem c6_key_collision :
    equationKey "e_1*1x1*1_0_c" 1 1 1 1 0 "c" =
      equationKey "e" 1 1 1 1 0 "c_1*1x1*1_0_c" ∧
    ("e_1*1x1*1_0_c" : String) ≠ "e" := by
  constructor
  · decide
  · decide

/-- C6 amended: the cache key is injective over the request fields provided
the color value contains no underscore character. -/
theorem c6_key_injective_of_underscore_free_color
    (e1 e2 c1 c2 : String) (cw1 w1 ch1 h1 f1 cw2 w2 ch2 h2 f2 : Nat)
    (hc1 : '_' ∉ c1.data) (hc2 : '_' ∉ c2.data)
    (hk : equationKey e1 cw1 w1 ch1 h1 f1 c1 =
      equationKey e2 cw2 w2 ch2 h2 f2 c2) :
    e1 = e2 ∧ cw1 = cw2 ∧ w1 = w2 ∧ ch1 = ch2 ∧ h1 = h2 ∧ f1 = f2 ∧
      c1 = c2 := by
  have hd := congrArg String.data hk
  rw [equationKey_data, equationKey_data] at hd
  have hr := congrArg List.reverse hd
  simp only [List.reverse_append, List.reverse_cons, List.reverse_nil,
    List.nil_append, List.singleton_append] at hr
  obtain ⟨hq1, hr⟩ := splitUniqL '_' _ _ _ _
    (by simpa [List.mem_reverse] using hc1)
    (by simpa [List.mem_reverse] using hc2) hr
  have hcEq : c1 = c2 := String.ext (List.reverse_injective hq1)
  obtain ⟨hq2, hr⟩ := splitUniqL '_' _ _ _ _
    (by simp only [List.mem_reverse]; exact not_mem_repr _ _ (by decide))
    (by simp only [List.mem_reverse]; exact not_mem_repr _ _ (by decide)) hr
  have hfEq : f1 = f2 :=
    natRepr_injective _ _ (String.ext (List.reverse_injective hq2))
  obtain ⟨hq3, hr⟩ := splitUniqL '*' _ _ _ _
    (by simp only [List.mem_reverse]; exact not_mem_repr _ _ (by decide))
    (by simp only [List.mem_reverse]; exact not_mem_repr _ _ (by decide)) hr
  have hhEq : h1 = h2 :=
    natRepr_injective _ _ (String.ext (List.reverse_injective hq3))
  obtain ⟨hq4, hr⟩ := splitUniqL 'x' _ _ _ _
    (by simp only [List.mem_reverse]; exact not_mem_repr _ _ (by decide))
    (by simp only [List.mem_reverse]; exact not_mem_repr _ _ (by decide)) hr
  have hchEq : ch1 = ch2 :=
    natRepr_injective _ _ (String.ext (List.reverse_injective hq4))
  obtain ⟨hq5, hr⟩ := splitUniqL '*' _ _ _ _
    (by simp only [List.mem_reverse]; exact not_mem_repr _ _ (by decide))
    (by simp only [List.mem_reverse]; exact not_mem_repr _ _ (by decide)) hr
  have hwEq : w1 = w2 :=
    natRepr_injective _ _ (String.ext (List.reverse_injective hq5))
  obtain ⟨hq6, hr⟩ := splitUniqL '_' _ _ _ _
    (by simp only [List.mem_reverse]; exact not_mem_repr _ _ (by decide))
    (by simp only [List.mem_reverse]; exact not_mem_repr _ _ (by decide)) hr
  have hcwEq : cw1 = cw2 :=
    natRepr_injective _ _ (String.ext (List.reverse_injective hq6))
  have heEq : e1 = e2 := String.ext (List.reverse_injective hr)
  exact ⟨heEq, hcwEq, hwEq, hchEq, hhEq, hfEq, hcEq⟩

/-- C6 amended witness: concrete identical tuples with an underscore-free
color satisfy the injectivity conclusion. -/
theorem c6_key_injective_of_underscore_free_color_witness :
    ("a" : String) = "a" ∧ (2 : Nat) = 2 ∧ (3 : Nat) = 3 ∧ (4 : Nat) = 4 ∧
      (5 : Nat) = 5 ∧ (6 : Nat) = 6 ∧ ("red" : String) = "red" :=
  c6_key_injective_of_underscore_free_color "a" "a" "red" "red"
    2 3 4 5 6 2 3 4 5 6 (by decide) (by decide) rfl

/-- Executable occurrence test: does `pat` occur as a contiguous
subsequence of `s`? -/
def containsSeq (pat : List Char) : List Char → Bool
  | [] => pat.isEmpty
  | c :: t => pat.isPrefixOf (c :: t) || containsSeq pat t

/-- Interleaving of a token between parts (the inverse image of a
replace-all pass). -/
def interTok (sep : List Char) : List (List Char) → List Char
  | [] => []
  | [p] => p
  | p :: ps => p ++ sep ++ interTok sep ps

/-- Unfolding of `interTok` on a two-or-more-element list. -/
theorem interTok_cons_cons (sep p q : List Char) (ps : List (List Char)) :
    interTok sep (p :: q :: ps) = p ++ sep ++ interTok sep (q :: ps) := rfl

/-- Head-cons distributes over `interTok`. -/
theorem interTok_cons_head (sep : List Char) (c : Char) (p : List Char)
    (rest : List (List Char)) :
    interTok sep ((c :: p) :: rest) = c :: interTok sep (p :: rest) := by
  cases rest with
  | nil => rfl
  | cons q qs => simp [interTok]

/-- An `interTok` decomposition starts with its first part. -/
theorem interTok_head_prefix (sep : List Char) (p : List Char)
    (rest : List (List Char)) : ∃ q, interTok sep (p :: rest) = p ++ q := by
  cases rest with
  | nil => exact ⟨[], by simp [interTok]⟩
  | cons r rs => exact ⟨sep ++ interTok sep (r :: rs), by simp [interTok]⟩

/-- A nonempty pattern does not occur in the empty string. -/
theorem containsSeq_nil (pat : List Char) (hp : pat ≠ []) :
    containsSeq pat [] = false := by
  cases pat with
  | nil => exact absurd rfl hp
  | cons a b => rfl

/-- Unfolding of the replace-all scan on a nonempty subject. -/
theorem replaceAllGo_cons (pat repl : List Char) (fuel : Nat) (c : Char)
    (t : List Char) :
    replaceAllGo pat repl (fuel + 1) (c :: t) =
      if pat ≠ [] ∧ pat.isPrefixOf (c :: t) then
        repl ++ replaceAllGo pat repl fuel ((c :: t).drop pat.length)
      else c :: replaceAllGo pat repl fuel t := rfl

/-- Specification of the replace-all pass: the subject splits into
pattern-free parts separated by pattern occurrences, and the result is the
same parts separated by the replacement — i.e. every occurrence of the
pattern is replaced. -/
theorem replaceAllL_spec (pat repl : List Char) (hp : pat ≠ []) (s : List Char) :
    ∃ parts : List (List Char), parts ≠ [] ∧
      s = interTok pat parts ∧
      (∀ p ∈ parts, containsSeq pat p = false) ∧
      replaceAllL pat repl s = interTok repl parts := by
  suffices h : ∀ (fuel : Nat) (s : List Char), s.length ≤ fuel →
      ∃ parts : List (List Char), parts ≠ [] ∧
        s = interTok pat parts ∧
        (∀ p ∈ parts, containsSeq pat p = false) ∧
        replaceAllGo pat repl fuel s = interTok repl parts by
    exact h s.length s le_rfl
  intro fuel
  induction fuel with
  | zero =>
    intro s hs
    have hnil : s = [] := List.eq_nil_of_length_eq_zero (Nat.le_zero.mp hs)
    subst hnil
    refine ⟨[[]], by simp, by simp [interTok], ?_, by rfl⟩
    intro p hmem
    rw [List.mem_singleton.mp hmem]
    exact containsSeq_nil pat hp
  | succ fuel ih =>
    intro s hs
    match s with
    | [] =>
      refine ⟨[[]], by simp, by simp [interTok], ?_, by rfl⟩
      intro p hmem
      rw [List.mem_singleton.mp hmem]
      exact containsSeq_nil pat hp
    | c :: t =>
      by_cases hm : pat.isPrefixOf (c :: t)
      · obtain ⟨u, hu⟩ := List.isPrefixOf_iff_prefix.mp hm
        have hdrop : (c :: t).drop pat.length = u := by
          rw [← hu]
          exact List.drop_left pat u
        have hlen : ((c :: t).drop pat.length).length ≤ fuel := by
          rw [List.length_drop]
          have hp1 : 0 < pat.length := List.length_pos.mpr hp
          simp only [List.length_cons] at hs ⊢
          omega
        obtain ⟨parts, hne, hdec, hfree, hrep⟩ :=
          ih ((c :: t).drop pat.length) hlen
        refine ⟨[] :: parts, by simp, ?_, ?_, ?_⟩
        · rcases parts with _ | ⟨p, rest⟩
          · exact absurd rfl hne
          · rw [interTok_cons_cons]
            simp only [List.nil_append]
            rw [← hdec, hdrop]
            exact hu.symm
        · intro p hmem
          rcases List.mem_cons.mp hmem with h | h
          · rw [h]
            exact containsSeq_nil pat hp
          · exact hfree p h
        · rw [replaceAllGo_cons, if_pos ⟨hp, hm⟩, hrep]
          rcases parts with _ | ⟨p, rest⟩
          · exact absurd rfl hne
          · rw [interTok_cons_cons]
            simp
      · have hlen : t.length ≤ fuel := by
          simp only [List.length_cons] at hs
          omega
        obtain ⟨parts, hne, hdec, hfree, hrep⟩ := ih t hlen
        rcases parts with _ | ⟨p, rest⟩
        · exact absurd rfl hne
        refine ⟨(c :: p) :: rest, by simp, ?_, ?_, ?_⟩
        · rw [interTok_cons_head, ← hdec]
        · intro q hmem
          rcases List.mem_cons.mp hmem with h | h
          · rw [h]
            show (pat.isPrefixOf (c :: p) || containsSeq pat p) = false
            have hcfree : containsSeq pat p = false :=
              hfree p (List.mem_cons_self _ _)
            have hpref : pat.isPrefixOf (c :: p) = false := by
              by_contra hcon
              rw [Bool.not_eq_false] at hcon
              obtain ⟨q0, hq0⟩ := interTok_head_prefix pat p rest
              have hps : (c :: p) <+: (c :: t) := by
                rw [List.cons_prefix_cons]
                exact ⟨rfl, hdec ▸ hq0 ▸ ⟨q0, rfl⟩⟩
              have : pat.isPrefixOf (c :: t) = true :=
                List.isPrefixOf_iff_prefix.mpr
                  (( List.isPrefixOf_iff_prefix.mp hcon).trans hps)
              exact hm this
            rw [hcfree, hpref]
            rfl
          · exact hfree q (List.mem_cons_of_mem _ h)
        · rw [replaceAllGo_cons, if_neg (fun hcon => hm hcon.2), hrep,
            interTok_cons_head]

/-- A match of the pattern `style="[^"]+"`: the literal head, a nonempty
quote-free body, and the closing quote. -/
def isStyleMatch (m : List Char) : Prop :=
  ∃ r, r ≠ [] ∧ '"' ∉ r ∧ m = stylePat ++ r ++ ['"']

/-- takeWhile/dropWhile on a satisfying block followed by a failing head. -/
theorem takeWhile_dropWhile_block (p : Char → Bool) (r : List Char)
    (hr : ∀ c ∈ r, p c = true) (a : Char) (ha : p a = false) (b : List Char) :
    (r ++ a :: b).takeWhile p = r ∧ (r ++ a :: b).dropWhile p = a :: b := by
  induction r with
  | nil => simp [List.takeWhile_cons, List.dropWhile_cons, ha]
  | cons c cs ih =>
    have hc : p c = true := hr c (List.mem_cons_self _ _)
    have ih' := ih fun x hx => hr x (List.mem_cons_of_mem _ hx)
    simp [List.takeWhile_cons, List.dropWhile_cons, hc, ih'.1, ih'.2]

/-- A successful head match of the style pattern splits the subject and is a
genuine style match. -/
theorem styleMatchAt?_eq_some (s m after : List Char)
    (h : styleMatchAt? s = some (m, after)) :
    s = m ++ after ∧ isStyleMatch m := by
  unfold styleMatchAt? at h
  split at h
  · rename_i hpre
    dsimp only at h
    split at h
    · rename_i hcond
      obtain ⟨hrne, hhead⟩ := hcond
      injection h with h'
      injection h' with hm hafter
      obtain ⟨u, hu⟩ := List.isPrefixOf_iff_prefix.mp hpre
      have hdu : s.drop stylePat.length = u := by
        rw [← hu]
        exact List.drop_left stylePat u
      have htw := List.takeWhile_append_dropWhile
        (fun c => decide (c ≠ '"')) (s.drop stylePat.length)
      rcases hrest : (s.drop stylePat.length).dropWhile
          (fun c => decide (c ≠ '"')) with _ | ⟨q0, qs⟩
      · rw [hrest] at hhead
        simp at hhead
      · rw [hrest] at hhead
        simp only [List.head?_cons, Option.some.injEq] at hhead
        subst hhead
        constructor
        · rw [← hm, ← hafter, hrest]
          simp only [List.tail_cons]
          rw [hrest] at htw
          rw [hdu] at htw
          conv_lhs => rw [← hu, ← htw]
          simp
          rw [hdu]
        · refine ⟨(s.drop stylePat.length).takeWhile (fun c => decide (c ≠ '"')),
            hrne, ?_, hm.symm⟩
          intro hq
          have := List.mem_takeWhile_imp hq
          simp at this
    · exact absurd h (by simp)
  · exact absurd h (by simp)

/-- If the style pattern does not match at the head, no decomposition of the
subject into a style match followed by a remainder exists. -/
theorem styleMatchAt?_eq_none (s : List Char) (h : styleMatchAt? s = none)
    (m b : List Char) (hs : s = m ++ b) (hm : isStyleMatch m) : False := by
  obtain ⟨r, hrne, hrq, rfl⟩ := hm
  have hpre : stylePat.isPrefixOf s = true := by
    rw [hs]
    apply List.isPrefixOf_iff_prefix.mpr
    exact ⟨r ++ ['"'] ++ b, by simp [List.append_assoc]⟩
  have ht : s.drop stylePat.length = r ++ '"' :: b := by
    rw [hs, show (stylePat ++ r ++ ['"']) ++ b =
      stylePat ++ (r ++ '"' :: b) by simp [List.append_assoc]]
    exact List.drop_left stylePat _
  have hblock := takeWhile_dropWhile_block (fun c => decide (c ≠ '"')) r
    (fun c hc => by
      simp only [decide_eq_true_eq]
      exact fun hcq => hrq (hcq ▸ hc)) '"' (by simp) b
  unfold styleMatchAt? at h
  rw [if_pos hpre] at h
  dsimp only at h
  rw [ht, hblock.1, hblock.2] at h
  rw [if_pos ⟨hrne, rfl⟩] at h
  exact absurd h (by simp)

/-- Specification of the first-style-removal pass: either the subject
contains no style match and is returned unchanged, or exactly the leftmost
style match is removed and everything else is kept. -/
theorem replaceFirstStyleL_spec (s : List Char) :
    (replaceFirstStyleL s = s ∧
      ∀ a m b, s = a ++ m ++ b → ¬ isStyleMatch m) ∨
    (∃ a m b, s = a ++ m ++ b ∧ isStyleMatch m ∧
      replaceFirstStyleL s = a ++ b ∧
      ∀ a' m' b', s = a' ++ m' ++ b' → isStyleMatch m' →
        a.length ≤ a'.length) := by
  induction s with
  | nil =>
    left
    refine ⟨rfl, ?_⟩
    intro a m b hs hm
    obtain ⟨r, hrne, _, rfl⟩ := hm
    simp [stylePat] at hs
  | cons c t ih =>
    cases hma : styleMatchAt? (c :: t) with
    | some x =>
      obtain ⟨m0, after⟩ := x
      obtain ⟨hsplit, hstyle⟩ := styleMatchAt?_eq_some _ _ _ hma
      right
      refine ⟨[], m0, after, by simpa using hsplit, hstyle, ?_, ?_⟩
      · show replaceFirstStyleL (c :: t) = [] ++ after
        simp [replaceFirstStyleL, hma]
      · intro a' m' b' h' hm'
        simp
    | none =>
      rcases ih with ⟨hid, hnone⟩ | ⟨a, m0, b, hdec, hsty, hres, hleft⟩
      · left
        refine ⟨by simp [replaceFirstStyleL, hma, hid], ?_⟩
        intro a m b hs hm
        cases a with
        | nil => exact styleMatchAt?_eq_none _ hma m b (by simpa using hs) hm
        | cons a0 a' =>
          simp only [List.cons_append, List.cons.injEq] at hs
          exact hnone a' m b hs.2 hm
      · right
        refine ⟨c :: a, m0, b, ?_, hsty, ?_, ?_⟩
        · simp [hdec]
        · simp [replaceFirstStyleL, hma, hres]
        · intro a' m' b' h' hm'
          cases a' with
          | nil =>
            exact (styleMatchAt?_eq_none _ hma m' b' (by simpa using h') hm').elim
          | cons a0 a'' =>
            simp only [List.cons_append, List.cons.injEq] at h'
            have := hleft a'' m' b' h'.2 hm'
            simp only [List.length_cons]
            omega

/-- C8 counterexample: the color substitution strips only the first inline
style attribute — a second, color-overriding style attribute survives in the
markup handed to the Rasterizer. -/
theorem c8_second_style_attribute_survives :
    containsSeq "style=\"color:blue\"".data
      (substituteColor "#ffffff"
        "<g style=\"color:red\"><g style=\"color:blue\">currentColor</g></g>").data
      = true ∧
    containsSeq "currentColor".data
      (substituteColor "#ffffff"
        "<g style=\"color:red\"><g style=\"color:blue\">currentColor</g></g>").data
      = false := by
  constructor
  · decide
  · decide

/-- C8 amended: before rasterization every occurrence of the placeholder
marker `currentColor` in the SVG markup is replaced with the request's
literal color value (the markup splits into marker-free parts joined by the
marker, and the result is the same parts joined by the color), while only
the first (leftmost) inline `style="…"` attribute match is stripped; when no
such match exists the markup passes through unchanged. -/
theorem c8_color_substitution_first_style_only (color svg : String) :
    (∃ parts : List (List Char), parts ≠ [] ∧
      svg.data = interTok "currentColor".data parts ∧
      (∀ p ∈ parts, containsSeq "currentColor".data p = false) ∧
      replaceAllL "currentColor".data color.data svg.data =
        interTok color.data parts) ∧
    (((substituteColor color svg).data =
        replaceAllL "currentColor".data color.data svg.data ∧
      ∀ a m b, replaceAllL "currentColor".data color.data svg.data =
        a ++ m ++ b → ¬ isStyleMatch m) ∨
     (∃ a m b, replaceAllL "currentColor".data color.data svg.data =
        a ++ m ++ b ∧ isStyleMatch m ∧
        (substituteColor color svg).data = a ++ b ∧
        ∀ a' m' b', replaceAllL "currentColor".data color.data svg.data =
          a' ++ m' ++ b' → isStyleMatch m' → a.length ≤ a'.length)) :=
  ⟨replaceAllL_spec "currentColor".data color.data (by decide) svg.data,
   replaceFirstStyleL_spec (replaceAllL "currentColor".data color.data svg.data)⟩
